import Mathlib

/-!
Verification development for the nlwkn water-rights PDF extraction pipeline.

The definitions below are shallow embeddings of the Rust sources:
  * `lib/src/helper_types.rs` — `Rate`, `Duration`, `OrFallback`, the
    `UNIT_RE` regex and `Rate::from_str`;
  * `lib/src/lib.rs` — `LandRecord`, `RateRecord = BTreeSet<OrFallback<Rate<f64>>>`;
  * `parser/src/parse/departments.rs` — `STRING_NUM_RE`, the
    `"Gemarkung, Flur:"` branch of `parse_usage_location`, and
    `parse_allowance_value`;
  * `parser/src/parse/root.rs` — `parse_root`;
  * `parser/src/intermediate/grouped_key_value.rs` — annotation
    extraction and `group_usage_locations`;
  * `src/bin/cadenza-pdf-parser/intermediate/text_block.rs` — the
    `handle_tj` join heuristic;
  * `src/bin/cadenza-pdf-parser/intermediate/key_value.rs` —
    `KeyValueRepr::from`.

Strings are modelled as `List Char` (`Str`).  Rust `f64` values are
modelled as exact rationals: every arithmetic operation the embedded code
performs (products of small integer factors, decimal literals) is exact in
`f64`, so the rational model agrees with the binary64 semantics on the
inputs in scope.  `f64`/`u32` parsing is modelled on plain decimal
numerals (sign, digits, one optional point), the sublanguage all inputs
in scope draw from.  Rust panics are modelled as a dedicated outcome
(`RustOutcome.panics`) or as `Option.none`, as noted at each definition.
-/

/-- Strings are modelled as lists of characters. -/
abbrev Str := List Char

/-- Shorthand: the character list of a string literal. -/
def strOf (s : String) : Str := s.toList

/-- Character class `\d` of the Rust `regex` crate (ASCII decimal digit on
the inputs in scope). -/
def isDigitC (c : Char) : Bool := c.isDigit

/-- Character class `\w` of the Rust `regex` crate, restricted to ASCII
(alphanumeric or underscore); all characters reaching the `\w` groups of
the embedded regexes are ASCII. -/
def isWordC (c : Char) : Bool := c.isAlphanum || c = '_'

/-- Character class `[\d\.,]` of `UNIT_RE`'s factor group. -/
def isFacC (c : Char) : Bool := c.isDigit || c = '.' || c = ','

/-- Numeric value of a digit list (most significant first), as read by the
Rust integer/float parsers. -/
def digitsVal (s : Str) : Nat := s.foldl (fun a c => a * 10 + c.toNat - '0'.toNat) 0

/-- Rust `str::parse::<u32>` on a run of decimal digits: the numeric value,
or `none` when the run is empty, holds a non-digit, or overflows `u32`. -/
def parseU32 (s : Str) : Option Nat :=
  if s ≠ [] ∧ s.all isDigitC ∧ digitsVal s ≤ 4294967295 then some (digitsVal s) else none

/-- Rust `str::parse::<f64>`, modelled on plain decimal numerals: optional
sign, then digits with at most one decimal point (at least one digit
overall).  The value is exact, built as a single fraction
`sign·(intpart·10^k + fracpart) / 10^k`; exponent forms and `inf`/`nan`
words are outside the sublanguage used by the documents and are not
modelled. -/
def parseF64Core (t : Str) (sign : ℤ) : Option ℚ :=
  let ip := t.takeWhile isDigitC
  match t.dropWhile isDigitC with
  | [] => if ip = [] then none else some (mkRat (sign * digitsVal ip) 1)
  | '.' :: rest =>
    if rest.all isDigitC ∧ (ip ≠ [] ∨ rest ≠ []) then
      some (mkRat (sign * (digitsVal ip * 10 ^ rest.length + digitsVal rest)) (10 ^ rest.length))
    else none
  | _ => none

/-- The sign step of `f64` parsing: an optional leading `-` or `+`. -/
def parseF64 (s : Str) : Option ℚ :=
  match s with
  | [] => parseF64Core [] 1
  | c :: t =>
    if c = '-' then parseF64Core t (-1)
    else if c = '+' then parseF64Core t 1
    else parseF64Core (c :: t) 1

/-- Not the space character (the split predicate of `splitn(_, ' ')`). -/
def notSpace (c : Char) : Bool := c ≠ ' '

/-- Character class `[^/]` of `UNIT_RE`'s measurement group. -/
def notSlash (c : Char) : Bool := c ≠ '/'

/-- Rust `str::splitn(2, ' ')`: the text before the first space, and the
rest after it (`none` when the string has no space). -/
def splitn2Space (s : Str) : Str × Option Str :=
  let pre := s.takeWhile notSpace
  match s.dropWhile notSpace with
  | [] => (pre, none)
  | _ :: rest => (pre, some rest)

/-- One step of Rust `str::rsplitn(_, ' ')`: the token after the last
space, and the text before it (`none` when the string has no space). -/
def rsplitOnceSpace (s : Str) : Str × Option Str :=
  let (a, b) := splitn2Space s.reverse
  (a.reverse, b.map List.reverse)

/-- `STRING_NUM_RE = ^(?<string>\D+)\s*(?<num>\d+)$` from
`parser/src/parse/departments.rs`.  The regex matches exactly the strings
of shape `non-digits⁺ digits⁺` (the `\s*` group is subsumed by the greedy
`\D+`, which also captures any whitespace); the captures are the non-digit
prefix and the digit suffix. -/
def stringNumCaptures (s : Str) : Option (Str × Str) :=
  let a := s.takeWhile (fun c => ¬ isDigitC c)
  let d := s.dropWhile (fun c => ¬ isDigitC c)
  if a ≠ [] ∧ d ≠ [] ∧ d.all isDigitC then some (a, d) else none

/-- Backtracking of the greedy `[\d\.,]*` group of `UNIT_RE` against a
final `\w+$`: starting from the maximal factor prefix (passed reversed),
give characters back until the remainder is a non-empty word run. -/
def facBacktrack : Str → Str → Option (Str × Str)
  | revFac, rest =>
    if rest ≠ [] ∧ rest.all isWordC then some (revFac.reverse, rest)
    else
      match revFac with
      | [] => none
      | c :: revFac => facBacktrack revFac (c :: rest)

/-- `UNIT_RE = ^(?<measurement>[^/]+)/(?<factor>[\d\.,]*)(?<time>\w+)$`
from `lib/src/helper_types.rs`: the measurement is the non-empty text
before the first `/`, and the remainder splits greedily into a factor of
digits/points/commas and a trailing non-empty word run. -/
def unitCaptures (u : Str) : Option (Str × Str × Str) :=
  let m := u.takeWhile notSlash
  match u.dropWhile notSlash with
  | '/' :: rest =>
    if m = [] then none
    else
      let fac := rest.takeWhile isFacC
      match facBacktrack fac.reverse (rest.drop fac.length) with
      | some (f, t) => some (m, f, t)
      | none => none
  | _ => none

/-- `Duration` from `lib/src/helper_types.rs`: a time dimension with a
numeric factor (`f64`, modelled as an exact rational). -/
inductive Duration
  | seconds (f : ℚ)
  | minutes (f : ℚ)
  | hours (f : ℚ)
  | days (f : ℚ)
  | weeks (f : ℚ)
  | months (f : ℚ)
  | years (f : ℚ)
deriving DecidableEq

/-- `Duration::as_secs`: rough conversion to seconds (30-day months,
365-day years), exactly as the source computes it. -/
def Duration.asSecs : Duration → ℚ
  | .seconds s => s
  | .minutes m => m * 60
  | .hours h => h * 60 * 60
  | .days d => d * 24 * 60 * 60
  | .weeks w => w * 7 * 24 * 60 * 60
  | .months m => m * 30 * 24 * 60 * 60
  | .years y => y * 365 * 24 * 60 * 60

/-- `impl PartialEq for Duration`: equality via `as_secs`. -/
def durEqB (a b : Duration) : Bool := a.asSecs = b.asSecs

/-- `impl Ord for Duration`: comparison via `as_secs` (`partial_cmp` on
finite `f64`, total here). -/
def durCmp (a b : Duration) : Ordering := compare a.asSecs b.asSecs

/-- `Rate<T>` from `lib/src/helper_types.rs`. -/
structure Rate (α : Type) where
  value : α
  measurement : Str
  time : Duration
deriving DecidableEq

/-- `impl PartialEq for Rate<T>`: `self.time == other.time && self.value
== other.value` — the measurement unit is not compared. -/
def rateEqB (a b : Rate ℚ) : Bool := durEqB a.time b.time && a.value = b.value

/-- `impl Ord for Rate<T>`: `self.time.cmp(&other.time)` — neither value
nor measurement takes part. -/
def rateCmp (a b : Rate ℚ) : Ordering := durCmp a.time b.time

/-- The time-code arms of `Rate::from_str`: `s`, `m|min`, `h`, `d`,
`w|wo`, `M|mo`, `a|y`; an unknown code is an error. -/
def timeOfCode (t : Str) (factor : ℚ) : Option Duration :=
  if t = strOf "s" then some (.seconds factor)
  else if t = strOf "m" ∨ t = strOf "min" then some (.minutes factor)
  else if t = strOf "h" then some (.hours factor)
  else if t = strOf "d" then some (.days factor)
  else if t = strOf "w" ∨ t = strOf "wo" then some (.weeks factor)
  else if t = strOf "M" ∨ t = strOf "mo" then some (.months factor)
  else if t = strOf "a" ∨ t = strOf "y" then some (.years factor)
  else none

/-- `Rate::<f64>::from_str` from `lib/src/helper_types.rs`: split once on
the first space into value and unit, parse the value as `f64`, match the
unit against `UNIT_RE`, parse the factor (`unwrap_or(1.0)`) and dispatch
on the time code.  `none` models every `Err` return. -/
def rateFromStr (s : Str) : Option (Rate ℚ) :=
  let (value, unitOpt) := splitn2Space s
  match unitOpt with
  | none => none
  | some unit =>
    match parseF64 value with
    | none => none
    | some v =>
      match unitCaptures unit with
      | none => none
      | some (m, f, t) =>
        let factor : ℚ := (parseF64 f).getD 1
        match timeOfCode t factor with
        | none => none
        | some d => some ⟨v, m, d⟩

/-- `OrFallback<T>` from `lib/src/helper_types.rs`: the expected typed
value, or the raw string when the expected grammar did not match. -/
inductive OrFallback (α : Type)
  | expected (t : α)
  | fallback (s : Str)
deriving DecidableEq

/-- Lexicographic comparison of strings (Rust `Ord for String`; for UTF-8
text, byte order and code-point order agree). -/
def lexCmp : Str → Str → Ordering
  | [], [] => .eq
  | [], _ :: _ => .lt
  | _ :: _, [] => .gt
  | a :: s, b :: t =>
    match compare a.val b.val with
    | .eq => lexCmp s t
    | o => o

/-- The derived `Ord for OrFallback<T>`: variant order first
(`Expected < Fallback`), then the payloads. -/
def orFallbackCmp (cmpT : α → α → Ordering) : OrFallback α → OrFallback α → Ordering
  | .expected a, .expected b => cmpT a b
  | .expected _, .fallback _ => .lt
  | .fallback _, .expected _ => .gt
  | .fallback a, .fallback b => lexCmp a b

/-- `BTreeSet::insert` on the sorted-list model of a `BTreeSet`: when an
element comparing equal is already present the set is unchanged (the old
element is kept), otherwise the new element enters at its position. -/
def btreeInsert (cmp : α → α → Ordering) (x : α) : List α → List α
  | [] => [x]
  | y :: ys =>
    match cmp x y with
    | .lt => x :: y :: ys
    | .eq => y :: ys
    | .gt => y :: btreeInsert cmp x ys

/-- An element of `RateRecord = BTreeSet<OrFallback<Rate<f64>>>`
(`lib/src/lib.rs`). -/
abbrev RateEntry := OrFallback (Rate ℚ)

/-- The comparator `RateRecord` sorts by: derived `OrFallback` order over
`Rate`'s `Ord` (which compares only the periods via `as_secs`). -/
def rateEntryCmp : RateEntry → RateEntry → Ordering := orFallbackCmp rateCmp

/-- `RateRecord` as a sorted list. -/
abbrev RateRecord := List RateEntry

/-- Insertion into a `RateRecord`. -/
def rateRecordInsert (x : RateEntry) (s : RateRecord) : RateRecord :=
  btreeInsert rateEntryCmp x s

/-- `LandRecord` from `lib/src/lib.rs`: register district and field
number (`u32`, held as the parsed `Nat`). -/
structure LandRecord where
  district : Str
  field : Nat
deriving DecidableEq

/-- The serialized form of an `OrFallback<LandRecord>`: the serde
`Serialize` impl of `OrFallback` (`lib/src/helper_types.rs`) emits the
expected value's own serialization (for `LandRecord`, the camelCase JSON
object of its two fields) or, for the fallback, the stored string as a
JSON string. -/
inductive LandSer
  | str (s : Str)
  | record (district : Str) (field : Nat)
deriving DecidableEq

/-- `OrFallback::<LandRecord>::serialize`. -/
def serializeLand : OrFallback LandRecord → LandSer
  | .expected lr => .record lr.district lr.field
  | .fallback s => .str s

/-- Rust `str::replace(' ', "")`: drop every space. -/
def stripSpaces (s : Str) : Str := s.filter (fun c => c ≠ ' ')

/-- The `("Gemarkung, Flur:", Some(v), _)` branch of
`parse_usage_location` (`parser/src/parse/departments.rs`): strip spaces,
match `STRING_NUM_RE`; on a match build the typed `LandRecord` (the
`captured["num"].parse()?` makes an overflowing digit run a hard error,
modelled as `none`); on a mismatch store the stripped string as the
fallback. -/
def landRecordFromValue (v : Str) : Option (OrFallback LandRecord) :=
  let v := stripSpaces v
  match stringNumCaptures v with
  | some (a, d) => (parseU32 d).map (fun n => OrFallback.expected ⟨a, n⟩)
  | none => some (.fallback v)

/-- `LegalDepartmentAbbreviation` from `lib/src/lib.rs`. -/
inductive Dept | A | B | C | D | E | F | K | L
deriving DecidableEq

/-- `Quantity` from `lib/src/helper_types.rs`: a number with a unit. -/
structure Quantity where
  value : ℚ
  unit : Str
deriving DecidableEq

/-- The fields of `UsageLocation` (`lib/src/lib.rs`) that
`parse_allowance_value` and the `"Gemarkung, Flur:"` branch touch. -/
structure UsageLocation where
  landRecord : Option (OrFallback LandRecord) := none
  withdrawalRate : RateRecord := []
  pumpingRate : RateRecord := []
  injectionRate : RateRecord := []
  wasteWaterFlowVolume : RateRecord := []
  rainSupplement : RateRecord := []
  fluidDischarge : RateRecord := []
  damDefault : Option Quantity := none
  damSteady : Option Quantity := none
  damMax : Option Quantity := none
  irrigationArea : Option Quantity := none
  injectionLimit : List (Str × Quantity) := []
deriving DecidableEq

/-- A fresh `UsageLocation::new()`. -/
def UsageLocation.init : UsageLocation := {}

/-- The waste-water kind labels of `parse_allowance_value`. -/
def wasteWaterKinds : List Str :=
  [strOf "Abwasservolumenstrom, Sekunde", strOf "Abwasservolumenstrom, RW, Sekunde",
   strOf "Abwasservolumenstrom, Std.", strOf "Abwasservolumenstrom, Tag",
   strOf "Abwasservolumenstrom, Jahr", strOf "Abwasservolumenstrom, RW, Jahr"]

/-- `parse_allowance_value` (`parser/src/parse/departments.rs`): rsplit
the value into unit, numeric value and kind label (the last two
space-separated tokens and the remainder), rebuild `"<value> <unit>"`,
parse it as a `Rate` with the grammar mismatch going to the fallback
variant, then route by kind label.  `none` models every `Err` return
(missing tokens, a dam/irrigation value that does not parse as `f64`, an
unknown kind label outside departments B/C/F). -/
def parseAllowanceValue (v : Str) (ul : UsageLocation) (dept : Dept) :
    Option UsageLocation :=
  let (unit, rest1) := rsplitOnceSpace v
  match rest1 with
  | none => none
  | some rest1 =>
    let (value, rest2) := rsplitOnceSpace rest1
    match rest2 with
    | none => none
    | some kind =>
      let rateStr := value ++ ' ' :: unit
      let rate : RateEntry :=
        match rateFromStr rateStr with
        | some r => .expected r
        | none => .fallback rateStr
      if kind = strOf "Entnahmemenge" then
        some { ul with withdrawalRate := rateRecordInsert rate ul.withdrawalRate }
      else if kind = strOf "Förderleistung" then
        some { ul with pumpingRate := rateRecordInsert rate ul.pumpingRate }
      else if kind = strOf "Einleitungsmenge" then
        some { ul with injectionRate := rateRecordInsert rate ul.injectionRate }
      else if kind = strOf "Stauziel, bezogen auf NN" then
        (parseF64 value).map (fun q => { ul with damDefault := some ⟨q, unit⟩ })
      else if kind = strOf "Stauziel (Höchststau), bezogen auf NN" then
        (parseF64 value).map (fun q => { ul with damMax := some ⟨q, unit⟩ })
      else if kind = strOf "Stauziel (Dauerstau), bezogen auf NN" then
        (parseF64 value).map (fun q => { ul with damSteady := some ⟨q, unit⟩ })
      else if kind ∈ wasteWaterKinds then
        some { ul with wasteWaterFlowVolume := rateRecordInsert rate ul.wasteWaterFlowVolume }
      else if kind = strOf "Beregnungsfläche" then
        (parseF64 value).map (fun q => { ul with irrigationArea := some ⟨q, unit⟩ })
      else if kind = strOf "Zusatzregen" then
        some { ul with rainSupplement := rateRecordInsert rate ul.rainSupplement }
      else if kind = strOf "Ableitungsmenge" then
        some { ul with fluidDischarge := rateRecordInsert rate ul.fluidDischarge }
      else if dept = .B ∨ dept = .C ∨ dept = .F then
        (parseF64 value).map (fun q =>
          { ul with injectionLimit := ul.injectionLimit ++ [(kind, ⟨q, unit⟩)] })
      else none

/-- Outcome of a Rust function that can return `Ok`, return `Err`, or
panic. -/
inductive RustOutcome (α : Type)
  | ok (a : α)
  | error
  | panics
deriving DecidableEq

/-- Rust `str::trim` (leading and trailing whitespace removed). -/
def trimStr (s : Str) : Str :=
  ((s.dropWhile Char.isWhitespace).reverse.dropWhile Char.isWhitespace).reverse

/-- `StringOption::sanitize` from `lib/src/util.rs`: `None` stays `None`;
a value that trims to `""` or `"-"` becomes `None`; otherwise the trimmed
value is kept. -/
def sanitize (v : Option Str) : Option Str :=
  match v with
  | none => none
  | some s =>
    let t := trimStr s
    if t = [] ∨ t = strOf "-" then none else some t

/-- UTF-8 byte length of a string. -/
def byteLen (s : Str) : Nat := (s.map Char.utf8Size).sum

/-- Drop the first `n` bytes of a string: `none` (a Rust slice panic) when
`n` overruns the string or falls inside a character. -/
def dropBytes : Str → Nat → Option Str
  | s, 0 => some s
  | [], _ + 1 => none
  | c :: s, n + 1 =>
    if c.utf8Size ≤ n + 1 then dropBytes s (n + 1 - c.utf8Size) else none

/-- Take the first `n` bytes of a string: `none` (a Rust slice panic) when
`n` overruns the string or falls inside a character. -/
def takeBytes : Str → Nat → Option Str
  | _, 0 => some []
  | [], _ + 1 => none
  | c :: s, n + 1 =>
    if c.utf8Size ≤ n + 1 then (takeBytes s (n + 1 - c.utf8Size)).map (c :: ·)
    else none

/-- Rust byte slicing `&s[a..b]`: `none` models the slice panic (when
`b < a`, a bound overruns the string, or a bound is not a character
boundary). -/
def sliceBytes (s : Str) (a b : Nat) : Option Str :=
  if b < a then none
  else (dropBytes s a).bind (fun t => takeBytes t (b - a))

/-- The root fields of `WaterRight` (`lib/src/lib.rs`) that `parse_root`
writes. -/
structure WaterRightRoot where
  waterAuthority : Option Str := none
  status : Option Str := none
  externalIdentifier : Option Str := none
  registeringAuthority : Option Str := none
  grantingAuthority : Option Str := none
  validFrom : Option Str := none
  initiallyGranted : Option Str := none
  fileReference : Option Str := none
  validUntil : Option Str := none
  subject : Option Str := none
deriving DecidableEq

/-- A key-value pair `(key, values)` as the grouper emits it. -/
abbrev KVPair := Str × List Str

/-- One iteration of the `parse_root` loop
(`parser/src/parse/root.rs`): sanitize the first value and dispatch on the
key.  The `"Kennziffer"` arm right-splits the value once on a space and
takes `state[1..state.len()-1]` — a byte slice whose panic is modelled by
`RustOutcome.panics`; an unrecognized key is the typed error. -/
def parseRootStep (w : WaterRightRoot) (p : KVPair) : RustOutcome WaterRightRoot :=
  let key := p.1
  let v := sanitize p.2.head?
  if key = strOf "Wasserbuchbehörde" then .ok { w with waterAuthority := v }
  else if key = strOf "Kennziffer" then
    match v with
    | none =>
      -- `("Kennziffer", Some(v))` only matches a present value; otherwise
      -- the catch-all arm returns the typed error
      .error
    | some v =>
      let (state, rest) := rsplitOnceSpace v
      match sliceBytes state 1 (byteLen state - 1) with
      | none => .panics
      | some mid => .ok { w with status := some mid, externalIdentifier := rest }
  else if key = strOf "erteilt durch /" then .ok w
  else if key = strOf "eingetragen durch:" then .ok { w with registeringAuthority := v }
  else if key = strOf "abweichend" then .ok w
  else if key = strOf "erteilt durch:" then .ok { w with grantingAuthority := v }
  else if key = strOf "erteilt am:" then .ok { w with validFrom := v }
  else if key = strOf "erstmalig erteilt am:" ∨ key = strOf "erstmalig ertellt am:" then
    .ok { w with initiallyGranted := v }
  else if key = strOf "Aktenzeichen:" then .ok { w with fileReference := v }
  else if key = strOf "Das Recht ist befristet bis" then .ok { w with validUntil := v }
  else if key = strOf "und betrifft Rechtsabteilungen" then .ok w
  else if key = strOf "Betreff:" then .ok { w with subject := v }
  else .error

/-- `parse_root`: fold the loop over the root pairs. -/
def parseRoot (items : List KVPair) (w : WaterRightRoot) : RustOutcome WaterRightRoot :=
  match items with
  | [] => .ok w
  | p :: rest =>
    match parseRootStep w p with
    | .ok w => parseRoot rest w
    | .error => .error
    | .panics => .panics

/-- The trailing-label extraction of `GroupedKeyValueRepr::from`
(`parser/src/intermediate/grouped_key_value.rs`): walk the pairs from the
end collecting keys while the value lists are empty, stop at the first
non-empty value list, pop the collected pairs, and join the collected
keys (reversed back into document order) with single spaces; no collected
key gives no annotation. -/
def extractAnnot (l : List KVPair) : List KVPair × Option Str :=
  let collected := (l.reverse.takeWhile (fun p => p.2.isEmpty)).map Prod.fst
  let remaining := l.take (l.length - collected.length)
  let annot :=
    if collected.isEmpty then none
    else some (List.intercalate (strOf " ") collected.reverse)
  (remaining, annot)

/-- The root split of `GroupedKeyValueRepr::from`: after the annotation is
removed, pairs are consumed into `root` while the key is not the
department sentinel `"Abteilung:"`. -/
def splitRoot (l : List KVPair) : List KVPair × List KVPair :=
  (l.takeWhile (fun p => p.1 ≠ strOf "Abteilung:"),
   l.dropWhile (fun p => p.1 ≠ strOf "Abteilung:"))

/-- The loop of `group_usage_locations`
(`parser/src/intermediate/grouped_key_value.rs`), with the flushed groups
and current accumulator made explicit: peek at the next pair; stop
(without consuming) at `"Abteilung:"`; at `"Nutzungsort Lfd. Nr.:"` flush
a non-empty accumulator first; then consume the pair into the
accumulator.  At the end of the loop the final accumulator is always
pushed, empty or not. -/
def groupULAux : List KVPair → List (List KVPair) → List KVPair →
    List (List KVPair) × List KVPair
  | [], uls, cur => (uls ++ [cur], [])
  | p :: rest, uls, cur =>
    if p.1 = strOf "Abteilung:" then (uls ++ [cur], p :: rest)
    else if p.1 = strOf "Nutzungsort Lfd. Nr.:" then
      if cur.isEmpty then groupULAux rest uls (cur ++ [p])
      else groupULAux rest (uls ++ [cur]) [p]
    else groupULAux rest uls (cur ++ [p])

/-- `group_usage_locations`: the usage-location groups of one department
section, and the unconsumed remainder of the pair stream. -/
def groupUsageLocations (l : List KVPair) : List (List KVPair) × List KVPair :=
  groupULAux l [] []

/-- The join heuristic of `handle_tj`
(`src/bin/cadenza-pdf-parser/intermediate/text_block.rs`): a non-empty
decoded fragment joins pending content with no separator after `-` or
`/`, with a line break after `.` or `;`, and with a single space
otherwise; an empty fragment leaves the content as it was. -/
def joinContent (prev : Option Str) (fragment : Str) : Option Str :=
  match prev, fragment.isEmpty with
  | some p, false =>
    match p.getLast? with
    | some l =>
      if l = '-' ∨ l = '/' then some (p ++ fragment)
      else if l = '.' ∨ l = ';' then some (p ++ '\n' :: fragment)
      else some (p ++ ' ' :: fragment)
    | none => some (p ++ ' ' :: fragment)
  | some p, true => some p
  | none, false => some fragment
  | none, true => none

/-- A text block as `KeyValueRepr::from`
(`src/bin/cadenza-pdf-parser/intermediate/key_value.rs`) consumes it: the
first-seen x position, decoded font family and merged content (the other
`TextBlock` fields are not read by the grouper). -/
structure TB where
  x : Option ℚ
  fontFamily : Option Str
  content : Option Str

/-- `x.floor() as u32`: the truncated column coordinate (the Rust
float-to-int cast saturates below zero). -/
def floorU32 (q : ℚ) : Nat := (Int.floor q).toNat

/-- A pair under construction in `KeyValueRepr::from`: the key and its
value fragments, each value tagged with the truncated x of the block it
came from. -/
abbrev KVBuild := Str × List (Nat × Str)

/-- Search one pair's value fragments (in order) for the first whose
stored x matches, and append `' ' ++ c` to it. -/
def appendVal : List (Nat × Str) → Nat → Str → Option (List (Nat × Str))
  | [], _, _ => none
  | (vx, s) :: rest, x, c =>
    if vx = x then some ((vx, s ++ ' ' :: c) :: rest)
    else (appendVal rest x c).map ((vx, s) :: ·)

/-- Search the pairs in reverse document order (`pairs.iter_mut().rev()`)
for the first value fragment with matching x; the input here is the
already-reversed pair list. -/
def appendRevPairs : List KVBuild → Nat → Str → Option (List KVBuild)
  | [], _, _ => none
  | (k, vs) :: rest, x, c =>
    match appendVal vs x c with
    | some vs => some ((k, vs) :: rest)
    | none => (appendRevPairs rest x c).map ((k, vs) :: ·)

/-- The column-continuation search of `KeyValueRepr::from`: append
`' ' ++ c` to the most recent previous value fragment whose truncated x
equals `x`; `none` when no fragment matches (the code then panics via
`.expect(..)`). -/
def appendToPrev (pairs : List KVBuild) (x : Nat) (c : Str) : Option (List KVBuild) :=
  (appendRevPairs pairs.reverse x c).map List.reverse

/-- One block of the `KeyValueRepr::from` page loop: blocks without
content or font family are skipped; a block with both but no x panics
(`panic!("x missing")`); font `F1` starts a new pair (flushing the open
one), fonts `F2`/`F3` extend the open pair or, with no pair open on the
page, fall back to the column-continuation search whose failure is the
`.expect` panic; other fonts are ignored. -/
def kvStep (pairs : List KVBuild) (entry : Option KVBuild) (b : TB) :
    RustOutcome (List KVBuild × Option KVBuild) :=
  match b.content, b.fontFamily with
  | some content, some font =>
    match b.x with
    | none => .panics
    | some xq =>
      let x := floorU32 xq
      if font = strOf "F1" then
        match entry with
        | none => .ok (pairs, some (content, []))
        | some e => .ok (pairs ++ [e], some (content, []))
      else if font = strOf "F3" ∨ font = strOf "F2" then
        match entry with
        | none =>
          match appendToPrev pairs x content with
          | some pairs => .ok (pairs, none)
          | none => .panics
        | some e => .ok (pairs, some (e.1, e.2 ++ [(x, content)]))
      else .ok (pairs, entry)
  | _, _ => .ok (pairs, entry)

/-- The per-page loop of `KeyValueRepr::from`: start each page with no
open pair and flush a still-open pair at page end. -/
def kvPage (blocks : List TB) (pairs : List KVBuild) : RustOutcome (List KVBuild) :=
  let rec go (bs : List TB) (pairs : List KVBuild) (entry : Option KVBuild) :
      RustOutcome (List KVBuild) :=
    match bs with
    | [] =>
      match entry with
      | none => .ok pairs
      | some e => .ok (pairs ++ [e])
    | b :: bs =>
      match kvStep pairs entry b with
      | .ok (pairs, entry) => go bs pairs entry
      | .error => .error
      | .panics => .panics
  go blocks pairs none

/-- `KeyValueRepr::from`: fold the pages and strip the per-value x tags. -/
def keyValueFrom (pages : List (List TB)) : RustOutcome (List KVPair) :=
  let rec go (ps : List (List TB)) (pairs : List KVBuild) : RustOutcome (List KVBuild) :=
    match ps with
    | [] => .ok pairs
    | page :: ps =>
      match kvPage page pairs with
      | .ok pairs => go ps pairs
      | .error => .error
      | .panics => .panics
  match go pages [] with
  | .ok pairs => .ok (pairs.map (fun p => (p.1, p.2.map Prod.snd)))
  | .error => .error
  | .panics => .panics

/-- The supported time-code tokens of the rate grammar. -/
def timeCodes : List Str :=
  [strOf "s", strOf "m", strOf "min", strOf "h", strOf "d", strOf "w",
   strOf "wo", strOf "M", strOf "mo", strOf "a", strOf "y"]

/-- A plain positive decimal numeral: digits with at most one trailing
decimal-point group, as `f64` parsing accepts it. -/
def isPlainNumeral (s : Str) : Bool :=
  match s.takeWhile isDigitC, s.dropWhile isDigitC with
  | [], _ => false
  | _ :: _, [] => true
  | _ :: _, '.' :: rest => rest.all isDigitC
  | _, _ => false

/-- Unfolding of a successful `STRING_NUM_RE` match: the captures are the
non-digit prefix and the all-digit suffix, both non-empty. -/
theorem stringNumCaptures_eq_some (s a d : Str)
    (h : stringNumCaptures s = some (a, d)) :
    a = s.takeWhile (fun c => ¬ isDigitC c) ∧
    d = s.dropWhile (fun c => ¬ isDigitC c) ∧
    a ≠ [] ∧ d ≠ [] ∧ d.all isDigitC = true := by
  simp only [stringNumCaptures] at h
  split at h
  · rename_i hc
    have h2 := Option.some.inj h
    rw [Prod.mk.injEq] at h2
    obtain ⟨ha, hd⟩ := h2
    subst ha
    subst hd
    exact ⟨rfl, rfl, hc.1, hc.2.1, hc.2.2⟩
  · exact absurd h (by simp)

/-- C1 counterexample.  The spec's fallback round-trip fails on any
non-matching string containing a space: parsing `"12 Foo"` (no match for
`STRING_NUM_RE`) stores and re-serializes the space-stripped `"12Foo"`,
not the original string. -/
theorem c1_roundtrip_cex :
    stringNumCaptures (stripSpaces (strOf "12 Foo")) = none ∧
    (landRecordFromValue (strOf "12 Foo")).map serializeLand =
      some (.str (strOf "12Foo")) ∧
    strOf "12Foo" ≠ strOf "12 Foo" := by
  decide

/-- C1 (amended).  For every string whose space-stripped form does not
match `STRING_NUM_RE`, parsing the `"Gemarkung, Flur:"` value and
re-serializing yields the space-stripped original — hence the original
string verbatim exactly when it contains no space. -/
theorem c1_fallback_roundtrip_stripped (s : Str)
    (h : stringNumCaptures (stripSpaces s) = none) :
    (landRecordFromValue s).map serializeLand = some (.str (stripSpaces s)) := by
  simp [landRecordFromValue, h, serializeLand]

/-- C1 witness: the theorem applied at `"12 Foo"`. -/
theorem c1_fallback_roundtrip_stripped_witness :
    stringNumCaptures (stripSpaces (strOf "12 Foo")) = none ∧
    (landRecordFromValue (strOf "12 Foo")).map serializeLand =
      some (.str (stripSpaces (strOf "12 Foo"))) :=
  ⟨by decide, c1_fallback_roundtrip_stripped (strOf "12 Foo") (by decide)⟩

/-- C2 counterexample.  `"A4294967296"` matches the land-record grammar
`<letters><digits>` (and `STRING_NUM_RE`), yet the field aborts with a
hard parse failure: the digit run overflows the `u32` field number and
the `?` inside the match arm propagates the error. -/
theorem c2_hard_failure_cex :
    stringNumCaptures (strOf "A4294967296") =
      some (strOf "A", strOf "4294967296") ∧
    (strOf "A").all Char.isAlpha = true ∧
    landRecordFromValue (strOf "A4294967296") = none ∧
    (strOf "?!").all Char.isAlpha = false ∧
    landRecordFromValue (strOf "?!3") = some (.expected ⟨strOf "?!", 3⟩) := by
  decide

/-- C2 (amended).  The `"Gemarkung, Flur:"` branch never hard-fails
except on `u32` overflow: when the space-stripped value does not match
`STRING_NUM_RE` (non-digits then digits) it produces the fallback
variant; when it matches it produces the typed district+field record if
the digit run fits `u32`, and a hard failure otherwise. -/
theorem c2_land_record_cases (v : Str) :
    (stringNumCaptures (stripSpaces v) = none →
      landRecordFromValue v = some (.fallback (stripSpaces v))) ∧
    (∀ a d, stringNumCaptures (stripSpaces v) = some (a, d) →
      (digitsVal d ≤ 4294967295 →
        landRecordFromValue v = some (.expected ⟨a, digitsVal d⟩)) ∧
      (4294967295 < digitsVal d → landRecordFromValue v = none)) := by
  constructor
  · intro h
    simp [landRecordFromValue, h]
  · intro a d h
    have hd := stringNumCaptures_eq_some (stripSpaces v) a d h
    constructor
    · intro hle
      simp [landRecordFromValue, h, parseU32, hd.2.2.2.1, hd.2.2.2.2, hle]
    · intro hlt
      simp [landRecordFromValue, h, parseU32, Nat.not_le.mpr hlt]

/-- C4 counterexample.  The spec's scenario-B value
`"Entnahmemenge: 12 m³/2a"` keeps the colon on the kind label after the
right-split, so it does not hit the `"Entnahmemenge"` arm: for department
A the allowance parser hard-fails, and for department B it lands in the
generic injection-limit list — in neither case is a rate inserted into
the withdrawal-rate set. -/
theorem c4_withdrawal_cex :
    parseAllowanceValue (strOf "Entnahmemenge: 12 m³/2a") UsageLocation.init .A = none ∧
    parseAllowanceValue (strOf "Entnahmemenge: 12 m³/2a") UsageLocation.init .B =
      some { UsageLocation.init with
               injectionLimit := [(strOf "Entnahmemenge:", ⟨12, strOf "m³/2a"⟩)] } := by
  decide

/-- C4 (amended).  With the kind label spelled as the code matches it —
value `"Entnahmemenge 12 m³/2a"` — the allowance parser produces, for
every department, the typed rate `{value 12, measurement "m³", per
Years 2}` and inserts it into the withdrawal-rate set. -/
theorem c4_withdrawal_rate_inserted (d : Dept) :
    parseAllowanceValue (strOf "Entnahmemenge 12 m³/2a") UsageLocation.init d =
      some { UsageLocation.init with
               withdrawalRate := [.expected ⟨12, strOf "m³", .years 2⟩] } := by
  cases d <;> decide

/-- C9.  The root parser is not total: the `"Kennziffer"` rule slices
`state[1..state.len()-1]` out of the right token, which panics when that
token is a single character (or any token shorter than two bytes), so the
pair `("Kennziffer", ["A"])` aborts the process instead of returning a
typed error. -/
theorem c9_kennziffer_panics :
    parseRoot [(strOf "Kennziffer", [strOf "A"])] {} = .panics := by
  decide

/-- C5.  Annotation extraction removes exactly the maximal trailing run
of pairs with empty value lists (stopping, scanning from the end, at the
first pair with a non-empty value list, or at the start of the document)
and joins the removed keys in document order with single spaces. -/
theorem c5_annot_extraction (l₁ r : List KVPair)
    (hr : ∀ p ∈ r, p.2 = [])
    (hl : l₁ = [] ∨ ∃ l₀ q, l₁ = l₀ ++ [q] ∧ q.2 ≠ []) :
    extractAnnot (l₁ ++ r) =
      (l₁, if r = [] then none
           else some (List.intercalate (strOf " ") (r.map Prod.fst))) := by
  have hall : ∀ x ∈ r.reverse, (fun p : KVPair => p.2.isEmpty) x = true := by
    intro x hx
    simp only [List.mem_reverse] at hx
    simp [hr x hx]
  have hl2 : l₁.reverse.takeWhile (fun p : KVPair => p.2.isEmpty) = [] := by
    rcases hl with rfl | ⟨l₀, q, rfl, hq⟩
    · rfl
    · rw [List.reverse_append]
      simp [List.takeWhile_cons, List.isEmpty_iff, hq]
  simp only [extractAnnot, List.reverse_append,
    List.takeWhile_append_of_pos hall, hl2, List.append_nil]
  rw [Prod.mk.injEq]
  constructor
  · rw [List.length_map, List.length_reverse, List.length_append,
      Nat.add_sub_cancel, List.take_left]
  · rcases r with _ | ⟨p, r⟩
    · rfl
    · simp [List.isEmpty_iff, List.map_reverse]

/-- C5 witness: scenario D — trailing pairs `("Bemerkung:", [])`,
`("wichtig", [])` yield the annotation `"Bemerkung: wichtig"` and are
both removed. -/
theorem c5_annot_extraction_witness :
    extractAnnot
        ([(strOf "K", [strOf "v"])] ++ [(strOf "Bemerkung:", []), (strOf "wichtig", [])]) =
      ([(strOf "K", [strOf "v"])], some (strOf "Bemerkung: wichtig")) := by
  have h := c5_annot_extraction [(strOf "K", [strOf "v"])]
    [(strOf "Bemerkung:", []), (strOf "wichtig", [])]
    (by decide) (Or.inr ⟨[], (strOf "K", [strOf "v"]), rfl, by decide⟩)
  rw [h]
  decide

/-- Invariant of the `group_usage_locations` loop: the flushed groups hold
every consumed pair in order, the group list always ends with the final
accumulator, and the loop only stops at the end of input or in front of a
department-sentinel pair. -/
theorem groupULAux_spec (l : List KVPair) : ∀ uls cur,
    (∃ gs₀ fin, (groupULAux l uls cur).1 = gs₀ ++ [fin]) ∧
    (groupULAux l uls cur).1.flatten ++ (groupULAux l uls cur).2 =
      uls.flatten ++ cur ++ l ∧
    ((groupULAux l uls cur).2 = [] ∨
      ∃ p rest, (groupULAux l uls cur).2 = p :: rest ∧ p.1 = strOf "Abteilung:") := by
  induction l with
  | nil =>
    intro uls cur
    refine ⟨⟨uls, cur, rfl⟩, ?_, Or.inl rfl⟩
    simp [groupULAux]
  | cons p rest ih =>
    intro uls cur
    simp only [groupULAux]
    split
    · rename_i hsent
      refine ⟨⟨uls, cur, rfl⟩, ?_, Or.inr ⟨p, rest, rfl, hsent⟩⟩
      simp
    · split
      · split
        · obtain ⟨hex, hflat, hstop⟩ := ih uls (cur ++ [p])
          refine ⟨hex, ?_, hstop⟩
          rw [hflat]
          simp
        · obtain ⟨hex, hflat, hstop⟩ := ih (uls ++ [cur]) [p]
          refine ⟨hex, ?_, hstop⟩
          rw [hflat]
          simp
      · obtain ⟨hex, hflat, hstop⟩ := ih uls (cur ++ [p])
        refine ⟨hex, ?_, hstop⟩
        rw [hflat]
        simp

/-- C6.  Usage-location grouping stops without consuming at the next
department sentinel (or end of input), discards no consumed pair, and
always flushes the final accumulator as a trailing element — even when it
is empty, as when a department section ends right at its sentinel. -/
theorem c6_trailing_flush (l : List KVPair) :
    ((∃ gs₀ fin, (groupUsageLocations l).1 = gs₀ ++ [fin]) ∧
     (groupUsageLocations l).1.flatten ++ (groupUsageLocations l).2 = l ∧
     ((groupUsageLocations l).2 = [] ∨
       ∃ p rest, (groupUsageLocations l).2 = p :: rest ∧ p.1 = strOf "Abteilung:")) ∧
    (∀ vs rest, groupUsageLocations ((strOf "Abteilung:", vs) :: rest) =
       ([[]], (strOf "Abteilung:", vs) :: rest)) := by
  constructor
  · obtain ⟨hex, hflat, hstop⟩ := groupULAux_spec l [] []
    exact ⟨hex, by simpa using hflat, hstop⟩
  · intro vs rest
    simp [groupUsageLocations, groupULAux]

/-- C7.  The `handle_tj` join heuristic: with pending content `p`, a
non-empty fragment is appended with no separator after `-` or `/`, with a
line break after `.` or `;`, and with a single space otherwise; an empty
fragment leaves the content unchanged. -/
theorem c7_join_heuristic (p : Str) (c : Char) (cs : Str) :
    joinContent (some p) [] = some p ∧
    ((p.getLast? = some '-' ∨ p.getLast? = some '/') →
      joinContent (some p) (c :: cs) = some (p ++ c :: cs)) ∧
    ((p.getLast? = some '.' ∨ p.getLast? = some ';') →
      joinContent (some p) (c :: cs) = some (p ++ '\n' :: c :: cs)) ∧
    ((∀ x, p.getLast? = some x → x ≠ '-' ∧ x ≠ '/' ∧ x ≠ '.' ∧ x ≠ ';') →
      joinContent (some p) (c :: cs) = some (p ++ ' ' :: c :: cs)) := by
  refine ⟨rfl, ?_, ?_, ?_⟩
  · rintro (h | h) <;> simp [joinContent, h]
  · rintro (h | h) <;> simp [joinContent, h]
  · intro h
    rcases hx : p.getLast? with _ | x
    · simp [joinContent, hx]
    · obtain ⟨h1, h2, h3, h4⟩ := h x hx
      simp [joinContent, hx, h1, h2, h3, h4]

/-- Search failure of the per-pair value scan is exactly "no stored x
matches". -/
theorem appendVal_eq_none (vs : List (Nat × Str)) (x : Nat) (c : Str) :
    appendVal vs x c = none ↔ ∀ v ∈ vs, v.1 ≠ x := by
  induction vs with
  | nil => simp [appendVal]
  | cons v rest ih =>
    rcases v with ⟨vx, s⟩
    by_cases hx : vx = x
    · simp [appendVal, hx]
    · simp [appendVal, hx, ih]

/-- Search failure over the reversed pair list is exactly "no value
fragment of any pair stores a matching x". -/
theorem appendRevPairs_eq_none (l : List KVBuild) (x : Nat) (c : Str) :
    appendRevPairs l x c = none ↔ ∀ p ∈ l, ∀ v ∈ p.2, v.1 ≠ x := by
  induction l with
  | nil => simp [appendRevPairs]
  | cons p rest ih =>
    rcases p with ⟨k, vs⟩
    rcases hv : appendVal vs x c with _ | vs2
    · have hvs := (appendVal_eq_none vs x c).mp hv
      have hstep : appendRevPairs ((k, vs) :: rest) x c =
          (appendRevPairs rest x c).map ((k, vs) :: ·) := by
        simp only [appendRevPairs, hv]
      rw [hstep, Option.map_eq_none', ih]
      constructor
      · intro h p hp v hvm
        rcases List.mem_cons.mp hp with heq | hp2
        · subst heq
          exact hvs v hvm
        · exact h p hp2 v hvm
      · intro h p hp v hvm
        exact h p (List.mem_cons_of_mem _ hp) v hvm
    · have hex : ¬ ∀ v ∈ vs, v.1 ≠ x := by
        intro hall
        rw [← appendVal_eq_none vs x c] at hall
        rw [hall] at hv
        exact Option.noConfusion hv
      have hstep : appendRevPairs ((k, vs) :: rest) x c = some ((k, vs2) :: rest) := by
        simp only [appendRevPairs, hv]
      rw [hstep]
      constructor
      · intro h
        exact Option.noConfusion h
      · intro h
        exact absurd (fun v hvm => h (k, vs) (List.mem_cons_self _ _) v hvm) hex

/-- C8 (amended).  A value-font block arriving with no open label context
is appended, space-joined, to the most recent previous value fragment
whose stored truncated x equals the block's truncated x; when no fragment
matches, the grouper panics (the `.expect` call) instead of dropping the
block.  The concrete conjunct shows the most-recent matching fragment
(the later pair) receiving the space-joined content. -/
theorem c8_column_continuation (pairs : List KVBuild) (x : Nat) (c : Str) :
    (appendToPrev pairs x c = none ↔ ∀ p ∈ pairs, ∀ v ∈ p.2, v.1 ≠ x) ∧
    (∀ q : ℚ, kvStep pairs none ⟨some q, some (strOf "F2"), some c⟩ =
      (match appendToPrev pairs (floorU32 q) c with
       | some done => .ok (done, none)
       | none => .panics)) ∧
    appendToPrev [(strOf "k1", [(5, strOf "a")]), (strOf "k2", [(5, strOf "b")])] 5
        (strOf "c") =
      some [(strOf "k1", [(5, strOf "a")]), (strOf "k2", [(5, strOf "b c")])] := by
  refine ⟨?_, ?_, by decide⟩
  · rw [appendToPrev, Option.map_eq_none', appendRevPairs_eq_none]
    constructor
    · intro h p hp v hv
      exact h p (List.mem_reverse.mpr hp) v hv
    · intro h p hp v hv
      exact h p (List.mem_reverse.mp hp) v hv
  · intro q
    rcases h : appendToPrev pairs (floorU32 q) c with _ | done <;>
      simp [kvStep, strOf, h]

/-- C8 counterexample.  A value-font block on a page before any label,
with no previous pair at its column, makes the grouper panic
(`expect("line break without existing previous line?")`) — the claim's
"dropped and grouping continues without failing" does not hold. -/
theorem c8_orphan_value_panics :
    keyValueFrom [[⟨some 10, some (strOf "F2"), some (strOf "foo")⟩]] = .panics := by
  decide

/-- C10.  `Rate` equality ignores the measurement unit; the `RateRecord`
ordering ignores value and measurement, comparing only the periods via
`as_secs`; consequently inserting into a sorted `RateRecord` a second
rate whose period equals an existing element's period in approximate
seconds leaves the set unchanged, whatever its value or measurement. -/
theorem c10_rate_set_dedup (s : RateRecord) (v₁ v₂ : ℚ) (m₁ m₂ m₃ m₄ : Str)
    (d₁ d₂ : Duration) :
    rateEqB ⟨v₁, m₁, d₁⟩ ⟨v₂, m₂, d₂⟩ = rateEqB ⟨v₁, m₃, d₁⟩ ⟨v₂, m₄, d₂⟩ ∧
    rateCmp ⟨v₁, m₁, d₁⟩ ⟨v₂, m₂, d₂⟩ = compare d₁.asSecs d₂.asSecs ∧
    (List.Pairwise (fun a b => rateEntryCmp a b = .lt) s →
     OrFallback.expected ⟨v₁, m₁, d₁⟩ ∈ s →
     d₁.asSecs = d₂.asSecs →
     rateRecordInsert (.expected ⟨v₂, m₂, d₂⟩) s = s) := by
  refine ⟨rfl, rfl, ?_⟩
  intro hpw hmem hsec
  have hxe : rateEntryCmp (.expected ⟨v₂, m₂, d₂⟩) (.expected ⟨v₁, m₁, d₁⟩) = .eq := by
    simp only [rateEntryCmp, orFallbackCmp, rateCmp, durCmp]
    exact compare_eq_iff_eq.mpr hsec.symm
  induction s with
  | nil => exact absurd hmem (List.not_mem_nil _)
  | cons y ys ih =>
    obtain ⟨hy, hpw2⟩ := List.pairwise_cons.mp hpw
    simp only [rateRecordInsert, btreeInsert]
    split
    · rename_i h1
      exfalso
      rcases List.mem_cons.mp hmem with heq | hmem2
      · rw [← heq, hxe] at h1
        exact Ordering.noConfusion h1
      · have hye := hy _ hmem2
        rcases y with r | st
        · simp only [rateEntryCmp, orFallbackCmp, rateCmp, durCmp] at h1 hye
          rw [compare_lt_iff_lt] at h1 hye
          exact absurd (hsec ▸ (h1.trans hye)) (lt_irrefl _)
        · simp [rateEntryCmp, orFallbackCmp] at hye
    · rfl
    · rename_i h1
      have hmem2 : OrFallback.expected ⟨v₁, m₁, d₁⟩ ∈ ys := by
        rcases List.mem_cons.mp hmem with heq | hmem2
        · rw [← heq, hxe] at h1
          exact Ordering.noConfusion h1
        · exact hmem2
      have := ih hpw2 hmem2
      simp only [rateRecordInsert] at this
      rw [this]

/-- Every character of a plain numeral is a digit or the decimal point. -/
theorem plainNumeral_chars (s : Str) (h : isPlainNumeral s = true) :
    ∀ x ∈ s, isDigitC x = true ∨ x = '.' := by
  intro x hx
  rw [← List.takeWhile_append_dropWhile isDigitC s] at hx
  rcases List.mem_append.mp hx with h1 | h2
  · exact Or.inl (List.mem_takeWhile_imp h1)
  · unfold isPlainNumeral at h
    split at h
    · exact absurd h (by simp)
    · rename_i heqd
      rw [heqd] at h2
      exact absurd h2 (List.not_mem_nil x)
    · rename_i heqt heqd
      rw [heqd] at h2
      rcases List.mem_cons.mp h2 with rfl | h3
      · exact Or.inr rfl
      · exact Or.inl (by simpa using List.all_eq_true.mp h x h3)
    · exact absurd h (by simp)

/-- A plain numeral parses as `f64` for either sign. -/
theorem plainNumeral_parseF64Core (s : Str) (sign : ℤ)
    (h : isPlainNumeral s = true) : (parseF64Core s sign).isSome = true := by
  unfold isPlainNumeral at h
  split at h
  · exact absurd h (by simp)
  · rename_i heqt heqd
    simp [parseF64Core, heqt, heqd]
  · rename_i heqt heqd
    simp [parseF64Core, heqt, heqd, h]
  · exact absurd h (by simp)

/-- The sign step of `parseF64` is the identity on a numeral starting
with a digit. -/
theorem parseF64_digit_head (c : Char) (t : Str) (hc : isDigitC c = true) :
    parseF64 (c :: t) = parseF64Core (c :: t) 1 := by
  have h1 : c ≠ '-' := by
    intro heq
    rw [heq] at hc
    exact absurd hc (by decide)
  have h2 : c ≠ '+' := by
    intro heq
    rw [heq] at hc
    exact absurd hc (by decide)
  simp [parseF64, h1, h2]

/-- A plain numeral parses as `f64`. -/
theorem plainNumeral_parseF64 (s : Str) (h : isPlainNumeral s = true) :
    (parseF64 s).isSome = true := by
  rcases hs : s with _ | ⟨c, t⟩
  · rw [hs] at h
    exact absurd h (by decide)
  · have hc : isDigitC c = true := by
      have hx := plainNumeral_chars s h c (by rw [hs]; exact List.mem_cons_self _ _)
      rcases hx with hx | rfl
      · exact hx
      · rw [hs] at h
        unfold isPlainNumeral at h
        have hdot : isDigitC '.' = false := by decide
        simp [List.takeWhile_cons, hdot] at h
    rw [hs] at h
    rw [parseF64_digit_head c t hc]
    exact plainNumeral_parseF64Core (c :: t) 1 h

/-- Splitting on the first space of `a ++ " " ++ b` when `a` has no
space. -/
theorem splitn2Space_append (a b : Str) (ha : ∀ x ∈ a, x ≠ ' ') :
    splitn2Space (a ++ ' ' :: b) = (a, some b) := by
  have hpos : ∀ x ∈ a, notSpace x = true := by
    intro x hx
    simp [notSpace]
    exact ha x hx
  have hsp : notSpace ' ' = false := by decide
  have h1 : (a ++ ' ' :: b).takeWhile notSpace = a := by
    rw [List.takeWhile_append_of_pos hpos, List.takeWhile_cons, hsp]
    simp
  have h2 : (a ++ ' ' :: b).dropWhile notSpace = ' ' :: b := by
    rw [List.dropWhile_append_of_pos hpos, List.dropWhile_cons, hsp]
    simp
  simp [splitn2Space, h1, h2]

/-- The time-code tokens are non-empty all-word runs starting outside the
factor character class. -/
theorem timeCodes_shape (c : Str) (hc : c ∈ timeCodes) :
    c ≠ [] ∧ c.all isWordC = true ∧ isFacC (c.headD ' ') = false := by
  revert hc
  revert c
  decide

/-- The dispatch on a supported time code always yields a duration. -/
theorem timeOfCode_mem_isSome (c : Str) (hc : c ∈ timeCodes) (q : ℚ) :
    (timeOfCode c q).isSome = true := by
  simp only [timeCodes, List.mem_cons, List.not_mem_nil, or_false] at hc
  rcases hc with rfl | rfl | rfl | rfl | rfl | rfl | rfl | rfl | rfl | rfl | rfl <;> rfl

/-- `UNIT_RE` on a well-formed built unit string
`<measurement>/<factor><code>`: the three captures come back exactly. -/
theorem unitCaptures_build (m f t : Str)
    (hm : m ≠ []) (hms : ∀ x ∈ m, x ≠ '/')
    (hf : ∀ x ∈ f, isFacC x = true)
    (ht : t ≠ []) (htw : t.all isWordC = true)
    (ht0 : isFacC (t.headD ' ') = false) :
    unitCaptures (m ++ '/' :: (f ++ t)) = some (m, f, t) := by
  have hpos : ∀ x ∈ m, notSlash x = true := by
    intro x hx
    simp [notSlash]
    exact hms x hx
  have hsl : notSlash '/' = false := by decide
  have h1 : (m ++ '/' :: (f ++ t)).takeWhile notSlash = m := by
    rw [List.takeWhile_append_of_pos hpos, List.takeWhile_cons, hsl]
    simp
  have h2 : (m ++ '/' :: (f ++ t)).dropWhile notSlash = '/' :: (f ++ t) := by
    rw [List.dropWhile_append_of_pos hpos, List.dropWhile_cons, hsl]
    simp
  have h3 : (f ++ t).takeWhile isFacC = f := by
    rw [List.takeWhile_append_of_pos hf]
    rcases hts : t with _ | ⟨x, tl⟩
    · exact absurd hts ht
    · rw [hts] at ht0
      rw [List.takeWhile_cons, show isFacC x = false from ht0]
      simp
  have h4 : facBacktrack f.reverse t = some (f, t) := by
    unfold facBacktrack
    rw [if_pos ⟨ht, htw⟩, List.reverse_reverse]
  simp only [unitCaptures, h1, h2]
  rw [if_neg (by simpa using hm)]
  rw [h3, List.drop_left, h4]

/-- C3 counterexample.  The rate grammar is not total over all
measurement strings without `/`: the empty measurement (string
`"12 /2a"`, built with value 12, measurement `""`, factor 2, code `a`)
fails `UNIT_RE` (`[^/]+` needs a character), so `Rate::from_str` errors
and the caller falls back. -/
theorem c3_empty_measurement_cex :
    strOf "12 /2a" = strOf "12" ++ ' ' :: ([] ++ '/' :: (strOf "2" ++ strOf "a")) ∧
    rateFromStr (strOf "12 /2a") = none := by
  decide

/-- C3 (amended).  For every positive plain-decimal value and factor,
every non-empty measurement without `/`, and every supported time code,
the built string `"<value> <measurement>/<factor><code>"` parses to a
typed `Rate` — the caller never takes the fallback branch. -/
theorem c3_rate_totality (v f m c : Str)
    (hv : isPlainNumeral v = true) (hf : isPlainNumeral f = true)
    (hm : m ≠ []) (hms : ∀ x ∈ m, x ≠ '/')
    (hc : c ∈ timeCodes) :
    (rateFromStr (v ++ ' ' :: (m ++ '/' :: (f ++ c)))).isSome = true := by
  have hvs : ∀ x ∈ v, x ≠ ' ' := by
    intro x hx heq
    rcases plainNumeral_chars v hv x hx with hd | hd
    · rw [heq] at hd
      exact absurd hd (by decide)
    · rw [heq] at hd
      exact absurd hd (by decide)
  have hsplit := splitn2Space_append v (m ++ '/' :: (f ++ c)) hvs
  obtain ⟨qv, hqv⟩ := Option.isSome_iff_exists.mp (plainNumeral_parseF64 v hv)
  have hffac : ∀ x ∈ f, isFacC x = true := by
    intro x hx
    rcases plainNumeral_chars f hf x hx with hd | rfl
    · simp only [isDigitC] at hd
      simp [isFacC, hd]
    · decide
  obtain ⟨hcne, hcw, hc0⟩ := timeCodes_shape c hc
  have hcap := unitCaptures_build m f c hm hms hffac hcne hcw hc0
  obtain ⟨d, hd⟩ :=
    Option.isSome_iff_exists.mp (timeOfCode_mem_isSome c hc ((parseF64 f).getD 1))
  simp only [rateFromStr, hsplit, hqv, hcap, hd]
  rfl

/-- C3 witness: the theorem applied at value `12`, measurement `m³`,
factor `2`, code `a`. -/
theorem c3_rate_totality_witness :
    isPlainNumeral (strOf "12") = true ∧
    (rateFromStr (strOf "12" ++ ' ' :: (strOf "m³" ++ '/' :: (strOf "2" ++ strOf "a")))).isSome =
      true :=
  ⟨by decide, c3_rate_totality (strOf "12") (strOf "2") (strOf "m³") (strOf "a")
    (by decide) (by decide) (by decide) (by decide) (by decide)⟩
